import Mathlib

/-!
# Verification of the allocation-pool manager (`src/app.py`)

Shallow embedding of the Flask memory-pressure tool.  Each `bytearray` of
`take * 1024 * 1024` bytes is modelled by its size in megabytes `take : Nat`
(so `len(b) // (1024 * 1024) = take`).

Representation convention: the Python `_chunks` list is modelled with the
most-recently-appended group FIRST, and each group with its most-recently
appended block FIRST.  Under this convention a Python `xs.append(v)` followed
only by `xs.pop()` operations corresponds to `v :: xs` and head-pattern
matching; `_chunks[-1]` is the head group.  `_alloc_mb` returns its blocks in
allocation order, so appending the fresh group stores its reverse.
-/

deriving instance DecidableEq for Except

namespace MemApp

/-- Default chunk size, `CHUNK_MB_DEFAULT = 8` (app.py line 9). -/
def CHUNK_MB_DEFAULT : Nat := 8

/-- A Group: the Blocks of one Grow request (each Block a `bytearray`
modelled by its size in MB), most recently appended first. -/
abbrev Group := List Nat

/-- The Pool `_chunks`: groups, most recently appended first. -/
abbrev Pool := List Group

/-- The `while remain > 0` loop of `_alloc_mb` (app.py lines 14-17),
embedded with explicit fuel so it is structurally recursive: every iteration
removes `min(chunk_mb, remain) >= 1` MB whenever `chunk_mb > 0`, so starting
the fuel at the initial `remain` is always enough (`alloc_mb_loop_sum`
below depends on `remain <= fuel` only).  The source loops forever when
`chunk_mb = 0` (`take` stays 0); that case is unreachable from every caller
(`mem_add` rejects `chunk <= 0`, `mem_set` passes 8) and is mapped to `[]`
here. -/
def alloc_mb_loop (fuel remain chunk_mb : Nat) : List Nat :=
  match fuel with
  | 0 => []
  | fuel + 1 =>
    if remain = 0 then []
    else if chunk_mb = 0 then []
    else
      min chunk_mb remain ::
        alloc_mb_loop fuel (remain - min chunk_mb remain) chunk_mb

/-- Function `_alloc_mb` (app.py lines 11-18): build blocks of `min(chunk_mb, remain)`
until the requested `mb` is exhausted, returned in allocation order. -/
def alloc_mb (mb chunk_mb : Nat) : List Nat := alloc_mb_loop mb mb chunk_mb

/-- Function `_current_mb` (app.py lines 20-22): the sum of all block sizes.  In the
source this is `sum(len(b) ...) // (1024*1024)`; every block is a whole
number of MB so the division is exact. -/
def current_mb (s : Pool) : Nat := (s.map List.sum).sum

/-- A query-string parameter as the handlers see it: absent, an integer
string, or a string `int()` rejects with `ValueError`. -/
inductive Arg where
  | missing
  | intVal (n : Int)
  | notInt
deriving DecidableEq

/-- Parsing `int(request.args.get(name, default))`: `none` models the `ValueError`
raised on a non-integer string. -/
def parseArg (default : Int) : Arg → Option Int
  | .missing => some default
  | .intVal n => some n
  | .notInt => none

/-- The distinct `jsonify(error=...), 400` rejections of the handlers,
classified by the spec error kinds (`InvalidArgument` / `LimitExceeded`). -/
inductive Err where
  /-- Rejection saying mb/chunk must be positive (mem_add line 40,
  mem_free line 89). -/
  | badPositive
  /-- Rejection saying a single add is capped at 4096 MB (mem_add line 43). -/
  | overLimit
  /-- Rejection saying the parameter must be an integer (the `ValueError`
  handlers). -/
  | notInteger
  /-- Rejection saying mb must be nonnegative (mem_set line 59). -/
  | badNonneg
deriving DecidableEq

/-- Spec section 7 classification: every rejection except the 4096 safety
ceiling is an `InvalidArgument`. -/
def Err.isInvalidArgument : Err → Bool
  | .badPositive => true
  | .overLimit => false
  | .notInteger => true
  | .badNonneg => true

/-- Handler `mem_add` (app.py lines 33-51).  Parses `mb` (default 100) then `chunk`
(default `CHUNK_MB_DEFAULT`), validates, then appends one freshly allocated
group.  The successful payload is `(added_mb, chunk_mb, total_mb)`. -/
def mem_add (mbArg chunkArg : Arg) (s : Pool) :
    Except Err (Int × Int × Nat) × Pool :=
  match parseArg 100 mbArg with
  | none => (.error .notInteger, s)
  | some mb =>
    match parseArg (Int.ofNat CHUNK_MB_DEFAULT) chunkArg with
    | none => (.error .notInteger, s)
    | some chunk =>
      if mb ≤ 0 ∨ chunk ≤ 0 then (.error .badPositive, s)
      else if mb > 4096 then (.error .overLimit, s)
      else
        let blocks := alloc_mb mb.toNat chunk.toNat
        let s' := blocks.reverse :: s
        (.ok (mb, chunk, current_mb s'), s')

/-- The inner pop loop shared by `mem_set` (lines 75-77) and `mem_free`
(lines 97-99): `while group and remain > 0: b = group.pop();
remain -= len(b) // (1024*1024)`.  The group is newest-block-first, so
`pop()` is head removal. -/
def popLoop : Int → Group → Int × Group
  | remain, [] => (remain, [])
  | remain, b :: rest =>
    if 0 < remain then popLoop (remain - b) rest else (remain, b :: rest)

/-- The outer loop shared by `mem_set` (lines 73-79) and `mem_free`
(lines 95-101): `while remain > 0 and _chunks:` take the last group, run the
inner pop loop, and drop the group if it became empty (`_chunks.pop()`).
When the inner loop leaves the group nonempty it did so because
`remain <= 0`, so the outer loop then exits. -/
def freeLoop : Int → Pool → Pool
  | _, [] => []
  | remain, g :: gs =>
    if 0 < remain then
      match popLoop remain g with
      | (r, []) => freeLoop r gs
      | (_, b :: rest) => (b :: rest) :: gs
    else g :: gs

/-- Handler `mem_set` (app.py lines 53-81).  Payload on success is
`(total_mb, already_met_note)`. -/
def mem_set (mbArg : Arg) (s : Pool) : Except Err (Nat × Bool) × Pool :=
  match parseArg 0 mbArg with
  | none => (.error .notInteger, s)
  | some target =>
    if target < 0 then (.error .badNonneg, s)
    else
      let curr := current_mb s
      if target = (curr : Int) then (.ok (curr, true), s)
      else if target > (curr : Int) then
        let blocks := alloc_mb (target - (curr : Int)).toNat CHUNK_MB_DEFAULT
        let s' := blocks.reverse :: s
        (.ok (current_mb s', false), s')
      else
        let s' := freeLoop ((curr : Int) - target) s
        (.ok (current_mb s', false), s')

/-- Handler `mem_free` (app.py lines 83-103).  Payload on success is
`(freed_request_mb, total_mb)`. -/
def mem_free (mbArg : Arg) (s : Pool) : Except Err (Int × Nat) × Pool :=
  match parseArg 0 mbArg with
  | none => (.error .notInteger, s)
  | some mb =>
    if mb ≤ 0 then (.error .badPositive, s)
    else
      let s' := freeLoop mb s
      (.ok (mb, current_mb s'), s')

/-- Handler `mem_clear` (app.py lines 105-111): `_chunks.clear()`, report total. -/
def mem_clear (_s : Pool) : Nat × Pool :=
  let s' : Pool := []
  (current_mb s', s')

/-- Handler `mem_status` (app.py lines 24-31): read-only `(allocated_mb, groups)`. -/
def mem_status (s : Pool) : Nat × Nat := (current_mb s, s.length)

/-- Fallible `_alloc_mb` (fuel embedding as in `alloc_mb_loop`): `ok take`
says whether `bytearray(take * 2^20)` succeeds; a failed allocation raises
`MemoryError`, which propagates out of the builder (`.error ()`: an uncaught
Python exception). -/
def alloc_mb_f_loop (ok : Nat → Bool) (fuel remain chunk_mb : Nat) :
    Except Unit (List Nat) :=
  match fuel with
  | 0 => .ok []
  | fuel + 1 =>
    if remain = 0 then .ok []
    else if chunk_mb = 0 then .ok []
    else
      let take := min chunk_mb remain
      if ok take then
        (alloc_mb_f_loop ok fuel (remain - take) chunk_mb).map (take :: ·)
      else .error ()

/-- Fallible `_alloc_mb`. -/
def alloc_mb_f (ok : Nat → Bool) (mb chunk_mb : Nat) :
    Except Unit (List Nat) :=
  alloc_mb_f_loop ok mb mb chunk_mb

/-- Handler `mem_add` with the fallible allocator.  The `try` block (lines 36-45)
covers only the parameter parsing; the `_alloc_mb` call at line 47 sits
outside every `try`, so a `MemoryError` escapes the handler entirely (outer
`.error ()` = unhandled exception, i.e. a 500 crash of the request, not a
`jsonify` rejection). -/
def mem_add_f (ok : Nat → Bool) (mbArg chunkArg : Arg) (s : Pool) :
    Except Unit (Except Err (Int × Int × Nat) × Pool) :=
  match parseArg 100 mbArg with
  | none => .ok (.error .notInteger, s)
  | some mb =>
    match parseArg (Int.ofNat CHUNK_MB_DEFAULT) chunkArg with
    | none => .ok (.error .notInteger, s)
    | some chunk =>
      if mb ≤ 0 ∨ chunk ≤ 0 then .ok (.error .badPositive, s)
      else if mb > 4096 then .ok (.error .overLimit, s)
      else
        match alloc_mb_f ok mb.toNat chunk.toNat with
        | .error () => .error ()
        | .ok blocks =>
          let s' := blocks.reverse :: s
          .ok (.ok (mb, chunk, current_mb s'), s')

/-- Spec section 3 invariant on pool states: no group is empty. -/
def noEmptyGroup (s : Pool) : Prop := ∀ g ∈ s, g ≠ []

/-- Full validity: no empty group and every block positive (spec section 3:
every Block size in bytes is a positive multiple of 1 MiB). -/
def ValidPool (s : Pool) : Prop := ∀ g ∈ s, g ≠ [] ∧ ∀ b ∈ g, 0 < b

instance : DecidablePred noEmptyGroup := fun s =>
  inferInstanceAs (Decidable (∀ g ∈ s, g ≠ []))

instance : DecidablePred ValidPool := fun s =>
  inferInstanceAs (Decidable (∀ g ∈ s, g ≠ [] ∧ ∀ b ∈ g, 0 < b))

/-! ## Helper lemmas -/

/-- With positive chunk size and enough fuel the loop allocates exactly the
requested amount. -/
theorem alloc_mb_loop_sum (fuel : Nat) : ∀ remain chunk_mb : Nat,
    0 < chunk_mb → remain ≤ fuel →
    (alloc_mb_loop fuel remain chunk_mb).sum = remain := by
  induction fuel with
  | zero =>
    intro remain chunk_mb hc hf
    simp only [alloc_mb_loop, List.sum_nil]
    omega
  | succ fuel ih =>
    intro remain chunk_mb hc hf
    simp only [alloc_mb_loop]
    split
    · simp only [List.sum_nil]
      omega
    · split
      · omega
      · rename_i h0 _
        rw [List.sum_cons, ih (remain - min chunk_mb remain) chunk_mb hc
          (by omega)]
        omega

/-- The blocks of one allocation sum to exactly the requested amount. -/
theorem alloc_mb_sum (mb chunk_mb : Nat) (h : 0 < chunk_mb) :
    (alloc_mb mb chunk_mb).sum = mb :=
  alloc_mb_loop_sum mb mb chunk_mb h le_rfl

/-- Every allocated block is positive. -/
theorem alloc_mb_loop_pos (fuel : Nat) : ∀ remain chunk_mb : Nat,
    ∀ b ∈ alloc_mb_loop fuel remain chunk_mb, 0 < b := by
  induction fuel with
  | zero =>
    intro remain chunk_mb b hb
    simp [alloc_mb_loop] at hb
  | succ fuel ih =>
    intro remain chunk_mb b hb
    simp only [alloc_mb_loop] at hb
    split at hb
    · simp at hb
    · split at hb
      · simp at hb
      · rcases List.mem_cons.mp hb with rfl | hb
        · rename_i h0 hc
          omega
        · exact ih _ _ b hb

/-- Every allocated block is positive. -/
theorem alloc_mb_pos (mb chunk_mb : Nat) :
    ∀ b ∈ alloc_mb mb chunk_mb, 0 < b :=
  alloc_mb_loop_pos mb mb chunk_mb

/-- A valid allocation produces at least one block. -/
theorem alloc_mb_ne_nil (mb chunk_mb : Nat) (h0 : 0 < mb)
    (hc : 0 < chunk_mb) : alloc_mb mb chunk_mb ≠ [] := by
  unfold alloc_mb alloc_mb_loop
  match mb, h0 with
  | fuel + 1, _ =>
    simp only []
    split
    · omega
    · split
      · omega
      · exact List.cons_ne_nil _ _

theorem current_mb_cons (g : Group) (gs : Pool) :
    current_mb (g :: gs) = g.sum + current_mb gs := by
  simp [current_mb]

/-- The inner pop loop only removes blocks from the front (= the newest
blocks of the group). -/
theorem popLoop_suffix (remain : Int) (g : Group) :
    (popLoop remain g).2 <:+ g := by
  induction g generalizing remain with
  | nil => simp [popLoop]
  | cons b rest ih =>
    simp only [popLoop]
    split
    · exact (ih _).trans (List.suffix_cons b rest)
    · exact List.suffix_refl _

/-- Conservation: the drop in `remain` equals the MB freed by the inner
loop. -/
theorem popLoop_conserve (remain : Int) (g : Group) :
    (popLoop remain g).1 =
      remain - ((g.sum : Int) - ((popLoop remain g).2.sum : Int)) := by
  induction g generalizing remain with
  | nil => simp [popLoop]
  | cons b rest ih =>
    simp only [popLoop]
    split
    · have := ih (remain - b)
      simp only [List.sum_cons, Nat.cast_add]
      omega
    · simp

/-- If the inner loop left the group nonempty, it stopped because the
remaining amount was exhausted. -/
theorem popLoop_stop (remain : Int) (g : Group)
    (h : (popLoop remain g).2 ≠ []) : (popLoop remain g).1 ≤ 0 := by
  induction g generalizing remain with
  | nil => simp [popLoop] at h
  | cons b rest ih =>
    by_cases hr : 0 < remain
    · simp only [popLoop, if_pos hr] at h ⊢
      exact ih _ h
    · simp only [popLoop, if_neg hr]
      omega

/-- With enough remaining demand the inner loop empties the whole group. -/
theorem popLoop_drain (g : Group) (hpos : ∀ b ∈ g, 0 < b) (remain : Int)
    (hle : (g.sum : Int) ≤ remain) (hstart : 0 < remain ∨ g = []) :
    popLoop remain g = (remain - (g.sum : Int), []) := by
  induction g generalizing remain with
  | nil => simp [popLoop]
  | cons b rest ih =>
    have hr : 0 < remain := by
      rcases hstart with h | h
      · exact h
      · simp at h
    simp only [popLoop, if_pos hr]
    have hrest : ∀ x ∈ rest, 0 < x := fun x hx => hpos x (List.mem_cons_of_mem _ hx)
    have hsum : (rest.sum : Int) ≤ remain - b := by
      simp only [List.sum_cons, Nat.cast_add] at hle
      omega
    have hstart2 : 0 < remain - b ∨ rest = [] := by
      rcases List.eq_nil_or_concat rest with h | _
      · right; exact h
      · left
        have : 0 < rest.sum := List.sum_pos rest hrest (by
          rename_i hconc
          rcases hconc with ⟨l, a, rfl⟩
          simp)
        omega
    rw [ih hrest (remain - b) hsum hstart2]
    simp only [List.sum_cons, Nat.cast_add, Prod.mk.injEq]
    exact ⟨by omega, trivial⟩

/-- Popping with demand exactly the group total consumes the group and
nothing else. -/
theorem popLoop_exact (g : Group) (hpos : ∀ b ∈ g, 0 < b) :
    popLoop (g.sum : Int) g = (0, []) := by
  have hstart : 0 < (g.sum : Int) ∨ g = [] := by
    cases g with
    | nil => right; rfl
    | cons b rest =>
      left
      have : 0 < b := hpos b (List.mem_cons_self _ _)
      simp only [List.sum_cons, Nat.cast_add]
      omega
  rw [popLoop_drain g hpos _ le_rfl hstart]
  simp

/-- The outer loop is the identity once the demand is exhausted. -/
theorem freeLoop_nonpos (remain : Int) (s : Pool) (h : remain ≤ 0) :
    freeLoop remain s = s := by
  cases s with
  | nil => rfl
  | cons g gs =>
    simp only [freeLoop]
    rw [if_neg (by omega)]

/-- One unfolding of the outer loop while demand is positive. -/
theorem freeLoop_cons (remain : Int) (g : Group) (gs : Pool)
    (h : 0 < remain) :
    freeLoop remain (g :: gs) =
      if (popLoop remain g).2 = [] then freeLoop (popLoop remain g).1 gs
      else (popLoop remain g).2 :: gs := by
  simp only [freeLoop, if_pos h]
  rcases hpg : popLoop remain g with ⟨r, gr⟩
  cases gr <;> simp

/-- Shrinking removes whole blocks from the newest end only: the flattened
block sequence of the result is a suffix of the original one (in our
newest-first representation this is exactly LIFO whole-block removal,
with no block ever split or resized). -/
theorem freeLoop_suffix (remain : Int) (s : Pool) :
    (freeLoop remain s).flatten <:+ s.flatten := by
  induction s generalizing remain with
  | nil => simp [freeLoop]
  | cons g gs ih =>
    by_cases hr : 0 < remain
    · rw [freeLoop_cons _ _ _ hr]
      by_cases hg : (popLoop remain g).2 = []
      · rw [if_pos hg]
        refine (ih _).trans ?_
        simp only [List.flatten_cons]
        exact List.suffix_append g gs.flatten
      · rw [if_neg hg]
        obtain ⟨u, hu⟩ := popLoop_suffix remain g
        exact ⟨u, by rw [List.flatten_cons, List.flatten_cons,
          ← List.append_assoc, hu]⟩
    · rw [freeLoop_nonpos _ _ (by omega)]

/-- The shrink loop frees at least the demanded amount as long as memory is
left: the resulting total is at most `max 0 (total - remain)`. -/
theorem freeLoop_total (remain : Int) (s : Pool) :
    (current_mb (freeLoop remain s) : Int) ≤
      max 0 ((current_mb s : Int) - remain) := by
  induction s generalizing remain with
  | nil =>
    simp [freeLoop, current_mb]
  | cons g gs ih =>
    by_cases hr : 0 < remain
    · rw [freeLoop_cons _ _ _ hr]
      by_cases hg : (popLoop remain g).2 = []
      · rw [if_pos hg]
        have hcons := popLoop_conserve remain g
        rw [hg] at hcons
        have := ih ((popLoop remain g).1)
        rw [current_mb_cons]
        simp only [List.sum_nil, Nat.cast_zero] at hcons
        simp only [Nat.cast_add] at this ⊢
        omega
      · rw [if_neg hg]
        have hcons := popLoop_conserve remain g
        have hstop := popLoop_stop remain g hg
        rw [current_mb_cons, current_mb_cons]
        simp only [Nat.cast_add]
        omega
    · rw [freeLoop_nonpos _ _ (by omega)]
      omega

/-- With demand at least the whole pool, the loop empties the pool
completely (needs the pool invariants: no empty group, positive blocks). -/
theorem freeLoop_drain (s : Pool) (hv : ValidPool s) (remain : Int)
    (hle : (current_mb s : Int) ≤ remain) (hstart : 0 < remain ∨ s = []) :
    freeLoop remain s = [] := by
  induction s generalizing remain with
  | nil => rfl
  | cons g gs ih =>
    have hr : 0 < remain := by
      rcases hstart with h | h
      · exact h
      · simp at h
    have hg := hv g (List.mem_cons_self _ _)
    have hgs : ValidPool gs := fun x hx => hv x (List.mem_cons_of_mem _ hx)
    rw [current_mb_cons] at hle
    have hsumg : (g.sum : Int) ≤ remain := by
      simp only [Nat.cast_add] at hle
      omega
    rw [freeLoop_cons _ _ _ hr,
      popLoop_drain g hg.2 remain hsumg (Or.inl hr)]
    simp only [if_pos rfl]
    apply ih hgs
    · simp only [Nat.cast_add] at hle ⊢
      omega
    · cases gs with
      | nil => right; rfl
      | cons g2 gs2 =>
        left
        have hg2 := hv g2 (List.mem_cons_of_mem _ (List.mem_cons_self _ _))
        have hpos2 : 0 < g2.sum := List.sum_pos g2 hg2.2 hg2.1
        rw [current_mb_cons] at hle
        simp only [Nat.cast_add] at hle
        omega

/-- The shrink loop never leaves an empty group behind. -/
theorem freeLoop_noEmpty (remain : Int) (s : Pool) (h : noEmptyGroup s) :
    noEmptyGroup (freeLoop remain s) := by
  induction s generalizing remain with
  | nil => simpa [freeLoop] using h
  | cons g gs ih =>
    have hgs : noEmptyGroup gs := fun x hx => h x (List.mem_cons_of_mem _ hx)
    by_cases hr : 0 < remain
    · rw [freeLoop_cons _ _ _ hr]
      by_cases hg : (popLoop remain g).2 = []
      · rw [if_pos hg]
        exact ih _ hgs
      · rw [if_neg hg]
        intro x hx
        rcases List.mem_cons.mp hx with rfl | hx
        · exact hg
        · exact hgs x hx
    · rw [freeLoop_nonpos _ _ (by omega)]
      exact h

/-- The shrink loop also preserves block positivity, hence full validity. -/
theorem freeLoop_valid (remain : Int) (s : Pool) (h : ValidPool s) :
    ValidPool (freeLoop remain s) := by
  induction s generalizing remain with
  | nil => simpa [freeLoop] using h
  | cons g gs ih =>
    have hgs : ValidPool gs := fun x hx => h x (List.mem_cons_of_mem _ hx)
    by_cases hr : 0 < remain
    · rw [freeLoop_cons _ _ _ hr]
      by_cases hg : (popLoop remain g).2 = []
      · rw [if_pos hg]
        exact ih _ hgs
      · rw [if_neg hg]
        intro x hx
        rcases List.mem_cons.mp hx with rfl | hx
        · refine ⟨hg, fun b hb => ?_⟩
          have := popLoop_suffix remain g
          exact (h g (List.mem_cons_self _ _)).2 b (this.subset hb)
        · exact hgs x hx
    · rw [freeLoop_nonpos _ _ (by omega)]
      exact h

/-- Freeing exactly the total of the newest group removes that group and leaves
the rest of the pool untouched. -/
theorem freeLoop_exact (g : Group) (s : Pool) (hpos : ∀ b ∈ g, 0 < b)
    (remain : Int) (h0 : 0 < remain) (hsum : remain = (g.sum : Int)) :
    freeLoop remain (g :: s) = s := by
  rw [freeLoop_cons _ _ _ h0, hsum, popLoop_exact g hpos]
  simp only [if_pos rfl]
  exact freeLoop_nonpos _ _ le_rfl

/-- Evaluation of `mem_add` on valid arguments. -/
theorem mem_add_eq (mbArg chunkArg : Arg) (mb chunk : Int) (s : Pool)
    (hmb : parseArg 100 mbArg = some mb)
    (hchunk : parseArg (Int.ofNat CHUNK_MB_DEFAULT) chunkArg = some chunk)
    (h1 : 0 < mb) (h2 : mb ≤ 4096) (h3 : 0 < chunk) :
    mem_add mbArg chunkArg s =
      (.ok (mb, chunk,
        current_mb ((alloc_mb mb.toNat chunk.toNat).reverse :: s)),
       (alloc_mb mb.toNat chunk.toNat).reverse :: s) := by
  simp only [mem_add, hmb, hchunk]
  rw [if_neg (by omega), if_neg (by omega)]

/-- Evaluation of `mem_free` on valid arguments. -/
theorem mem_free_eq (mbArg : Arg) (mb : Int) (s : Pool)
    (hmb : parseArg 0 mbArg = some mb) (h : 0 < mb) :
    mem_free mbArg s =
      (.ok (mb, current_mb (freeLoop mb s)), freeLoop mb s) := by
  simp only [mem_free, hmb]
  rw [if_neg (by omega)]

/-- Evaluation of `mem_set` above the current total: it grows by the
difference with the default chunk size and no upper bound check. -/
theorem mem_set_eq_up (mbArg : Arg) (target : Int) (s : Pool)
    (hmb : parseArg 0 mbArg = some target)
    (h : (current_mb s : Int) < target) :
    mem_set mbArg s =
      (.ok (current_mb
          ((alloc_mb (target - (current_mb s : Int)).toNat
            CHUNK_MB_DEFAULT).reverse :: s), false),
       (alloc_mb (target - (current_mb s : Int)).toNat
          CHUNK_MB_DEFAULT).reverse :: s) := by
  simp only [mem_set, hmb]
  rw [if_neg (by omega), if_neg (by omega), if_pos (by omega)]

/-- Evaluation of `mem_set` below the current total: it runs the LIFO
shrink loop on the difference. -/
theorem mem_set_eq_down (mbArg : Arg) (target : Int) (s : Pool)
    (hmb : parseArg 0 mbArg = some target) (h0 : 0 ≤ target)
    (h : target < (current_mb s : Int)) :
    mem_set mbArg s =
      (.ok (current_mb (freeLoop ((current_mb s : Int) - target) s), false),
       freeLoop ((current_mb s : Int) - target) s) := by
  simp only [mem_set, hmb]
  rw [if_neg (by omega), if_neg (by omega), if_neg (by omega)]

/-- Every `mem_add` outcome either leaves the pool unchanged or appends one
group allocated with positive `mb` and `chunk`. -/
theorem mem_add_shape (a b : Arg) (s : Pool) :
    (mem_add a b s).2 = s ∨
    ∃ mb chunk : Int, 0 < mb ∧ 0 < chunk ∧
      (mem_add a b s).2 = (alloc_mb mb.toNat chunk.toNat).reverse :: s := by
  unfold mem_add
  cases a <;> cases b <;> simp only [parseArg] <;>
    first
      | (left; trivial)
      | (split_ifs with h1 h2
         · left; trivial
         · left; trivial
         · right
           refine ⟨_, _, ?_, ?_, rfl⟩ <;> omega)

/-- Every `mem_set` outcome leaves the pool unchanged, appends one group
allocated with a positive amount, or runs the shrink loop. -/
theorem mem_set_shape (a : Arg) (s : Pool) :
    (mem_set a s).2 = s ∨
    (∃ d : Nat, 0 < d ∧
      (mem_set a s).2 = (alloc_mb d CHUNK_MB_DEFAULT).reverse :: s) ∨
    ∃ r : Int, (mem_set a s).2 = freeLoop r s := by
  unfold mem_set
  cases a <;> simp only [parseArg]
  · rw [if_neg (by omega)]
    split_ifs with h1 h2
    · left; trivial
    · right; left
      refine ⟨_, ?_, rfl⟩
      omega
    · right; right
      exact ⟨_, rfl⟩
  · rename_i n
    split_ifs with h0 h1 h2
    · left; trivial
    · left; trivial
    · right; left
      refine ⟨_, ?_, rfl⟩
      omega
    · right; right
      exact ⟨_, rfl⟩
  · left; trivial

/-- Every `mem_free` outcome leaves the pool unchanged or runs the shrink
loop. -/
theorem mem_free_shape (a : Arg) (s : Pool) :
    (mem_free a s).2 = s ∨ ∃ r : Int, (mem_free a s).2 = freeLoop r s := by
  unfold mem_free
  cases a <;> simp only [parseArg]
  · rw [if_pos (by omega)]
    left
    trivial
  · rename_i n
    split_ifs with h1
    · left; trivial
    · right; exact ⟨_, rfl⟩
  · left; trivial

/-! ## Claim theorems -/

/-- C1: For every valid Grow request (integer `mb` with `0 < mb ≤ 4096` and
integer `chunk > 0`), the Pool total reported after the operation equals the
total before the operation plus `mb`, exactly, regardless of the chunk value
chosen (both in the `total_mb` field of the response and in the new state). -/
theorem C1_grow_total_exact (s : Pool) (mb chunk : Int)
    (h1 : 0 < mb) (h2 : mb ≤ 4096) (h3 : 0 < chunk) :
    (mem_add (.intVal mb) (.intVal chunk) s).1 =
      .ok (mb, chunk, current_mb s + mb.toNat) ∧
    current_mb (mem_add (.intVal mb) (.intVal chunk) s).2 =
      current_mb s + mb.toNat := by
  rw [mem_add_eq (.intVal mb) (.intVal chunk) mb chunk s rfl rfl h1 h2 h3]
  have hsum : (alloc_mb mb.toNat chunk.toNat).sum = mb.toNat :=
    alloc_mb_sum _ _ (by omega)
  constructor
  · simp only [current_mb_cons, List.sum_reverse, hsum]
    rw [Nat.add_comm]
  · simp only [current_mb_cons, List.sum_reverse, hsum]
    omega

/-- Witness for C1 at `s = [[3]]`, `mb = 5`, `chunk = 2`. -/
theorem C1_grow_total_exact_witness :
    (0:Int) < 5 ∧ (5:Int) ≤ 4096 ∧ (0:Int) < 2 ∧
    ((mem_add (.intVal 5) (.intVal 2) [[3]]).1 =
      .ok (5, 2, current_mb [[3]] + (5:Int).toNat) ∧
     current_mb (mem_add (.intVal 5) (.intVal 2) [[3]]).2 =
      current_mb [[3]] + (5:Int).toNat) :=
  ⟨by decide, by decide, by decide,
    C1_grow_total_exact [[3]] 5 2 (by decide) (by decide) (by decide)⟩

set_option maxRecDepth 1000000 in
/-- C2 counterexample: from the empty pool (total 0), Converge(5000) succeeds
and allocates, while Grow(5000) is rejected by the 4096 safety cap
(`mem_set` has no such cap on its grow path), so the two do not have the
same outcome or resulting state when the difference exceeds 4096. -/
theorem C2_converge_grow_counterexample :
    (mem_set (.intVal 5000) []).1 = .ok (5000, false) ∧
    (mem_add (.intVal 5000) .missing []).1 = .error .overLimit ∧
    (mem_set (.intVal 5000) []).2 ≠ (mem_add (.intVal 5000) .missing []).2 := by
  decide

/-- C2 amended: for every starting Pool state with total `curr` and every
`target > curr` whose difference is at most 4096 MB, Converge behaves
identically to Grow of the difference with the default chunk size: same
resulting Pool state and both succeed.  (For differences above 4096 the two
diverge: Grow is rejected with the limit error, Converge succeeds.) -/
theorem C2_converge_equals_grow_within_cap (s : Pool) (target : Int)
    (hgt : (current_mb s : Int) < target)
    (hcap : target - (current_mb s : Int) ≤ 4096) :
    (mem_set (.intVal target) s).2 =
      (mem_add (.intVal (target - (current_mb s : Int))) .missing s).2 ∧
    (mem_set (.intVal target) s).1.isOk = true ∧
    (mem_add (.intVal (target - (current_mb s : Int)))
      .missing s).1.isOk = true := by
  rw [mem_set_eq_up (.intVal target) target s rfl hgt,
      mem_add_eq (.intVal (target - (current_mb s : Int))) .missing
        (target - (current_mb s : Int)) (Int.ofNat CHUNK_MB_DEFAULT) s rfl rfl
        (by omega) hcap (by decide)]
  exact ⟨rfl, rfl, rfl⟩

/-- Witness for the amended C2 at `s = [[8]]`, `target = 20`. -/
theorem C2_converge_equals_grow_within_cap_witness :
    ((current_mb [[8]] : Int) < 20) ∧
    ((20:Int) - (current_mb [[8]] : Int) ≤ 4096) ∧
    ((mem_set (.intVal 20) [[8]]).2 =
      (mem_add (.intVal (20 - (current_mb [[8]] : Int))) .missing [[8]]).2 ∧
     (mem_set (.intVal 20) [[8]]).1.isOk = true ∧
     (mem_add (.intVal (20 - (current_mb [[8]] : Int)))
       .missing [[8]]).1.isOk = true) :=
  ⟨by decide, by decide,
    C2_converge_equals_grow_within_cap [[8]] 20 (by decide) (by decide)⟩

/-- C3: the claim says an out-of-memory failure during a Block allocation is
caught and reported as a structured AllocationFailure rejection.  The code
has no try/except around the `_alloc_mb` call (line 47 of app.py): with an
allocator whose very first `bytearray` raises, the `MemoryError` escapes
`mem_add` as an unhandled exception (`.error ()`), crashing the request
instead of producing a structured `jsonify` rejection. -/
theorem C3_alloc_failure_uncaught :
    mem_add_f (fun _ => false) (.intVal 100) (.intVal 8) [] = .error () := by
  decide

/-- C4 counterexample: starting empty, after Grow(mb=300, chunk=8),
Grow(mb=100, default chunk) and Shrink(mb=250) the total is 144, not the
claimed 150: the shrink loop pops whole 8 MB blocks and overshoots (it frees
100 + 4 + 19 * 8 = 256 MB in total). -/
theorem C4_scenario_counterexample :
    current_mb (mem_free (.intVal 250)
      ((mem_add (.intVal 100) .missing
        ((mem_add (.intVal 300) (.intVal 8) []).2)).2)).2 ≠ 150 := by
  decide

/-- C4 amended: the scenario yields, step by step, total=300 with 1 group,
total=400 with 2 groups, then total=144 (the second group, 100 MB, fully
freed; the first group reduced by 156 MB through whole-block LIFO popping),
and a final Clear yields total=0 and 0 groups. -/
theorem C4_scenario_amended :
    mem_status (mem_add (.intVal 300) (.intVal 8) []).2 = (300, 1) ∧
    mem_status (mem_add (.intVal 100) .missing
      (mem_add (.intVal 300) (.intVal 8) []).2).2 = (400, 2) ∧
    current_mb (mem_free (.intVal 250)
      ((mem_add (.intVal 100) .missing
        ((mem_add (.intVal 300) (.intVal 8) []).2)).2)).2 = 144 ∧
    mem_status (mem_clear (mem_free (.intVal 250)
      ((mem_add (.intVal 100) .missing
        ((mem_add (.intVal 300) (.intVal 8) []).2)).2)).2).2 = (0, 0) := by
  decide

/-- C5: every invalid input (`mb ≤ 0` or `chunk ≤ 0` for Grow, `mb ≤ 0` for
Shrink, `target < 0` for Converge, or a non-integer parameter string for any
of them) is rejected with an InvalidArgument-classified error and the Pool
state is exactly the same after the rejected call as before it. -/
theorem C5_invalid_rejected (s : Pool) (mb chunk target : Int)
    (a b c d : Arg) :
    (mb ≤ 0 ∨ chunk ≤ 0 →
      mem_add (.intVal mb) (.intVal chunk) s = (.error .badPositive, s)) ∧
    (mb ≤ 0 → mem_free (.intVal mb) s = (.error .badPositive, s)) ∧
    (target < 0 → mem_set (.intVal target) s = (.error .badNonneg, s)) ∧
    (a = .notInt ∨ b = .notInt →
      mem_add a b s = (.error .notInteger, s)) ∧
    (c = .notInt → mem_free c s = (.error .notInteger, s)) ∧
    (d = .notInt → mem_set d s = (.error .notInteger, s)) ∧
    Err.badPositive.isInvalidArgument = true ∧
    Err.badNonneg.isInvalidArgument = true ∧
    Err.notInteger.isInvalidArgument = true := by
  refine ⟨?_, ?_, ?_, ?_, ?_, ?_, rfl, rfl, rfl⟩
  · intro h
    simp only [mem_add, parseArg]
    rw [if_pos h]
  · intro h
    simp only [mem_free, parseArg]
    rw [if_pos h]
  · intro h
    simp only [mem_set, parseArg]
    rw [if_pos h]
  · intro h
    rcases h with rfl | rfl
    · rfl
    · cases a <;> rfl
  · intro h
    subst h
    rfl
  · intro h
    subst h
    rfl

/-- Witness for C5 at `s = [[2]]` with `mb = -1`, `chunk = 8`,
`target = -3` and non-integer strings for each handler. -/
theorem C5_invalid_rejected_witness :
    mem_add (.intVal (-1)) (.intVal 8) [[2]] = (.error .badPositive, [[2]]) ∧
    mem_free (.intVal (-1)) [[2]] = (.error .badPositive, [[2]]) ∧
    mem_set (.intVal (-3)) [[2]] = (.error .badNonneg, [[2]]) ∧
    mem_add .notInt .missing [[2]] = (.error .notInteger, [[2]]) ∧
    mem_free .notInt [[2]] = (.error .notInteger, [[2]]) ∧
    mem_set .notInt [[2]] = (.error .notInteger, [[2]]) :=
  have h := C5_invalid_rejected [[2]] (-1) 8 (-3) .notInt .missing .notInt
    .notInt
  ⟨h.1 (Or.inl (by decide)), h.2.1 (by decide), h.2.2.1 (by decide),
   h.2.2.2.1 (Or.inl rfl), h.2.2.2.2.1 rfl, h.2.2.2.2.2.1 rfl⟩

/-- C6: for every Pool state and every valid Grow(mb, chunk) immediately
followed by Shrink(mb), the resulting Pool total equals the total before the
Grow (full round trip): the shrink pops exactly the freshly appended group. -/
theorem C6_grow_shrink_roundtrip (s : Pool) (mb chunk : Int)
    (h1 : 0 < mb) (h2 : mb ≤ 4096) (h3 : 0 < chunk) :
    current_mb (mem_free (.intVal mb)
      ((mem_add (.intVal mb) (.intVal chunk) s).2)).2 = current_mb s := by
  have hpos : ∀ b ∈ (alloc_mb mb.toNat chunk.toNat).reverse, 0 < b := by
    intro b hb
    exact alloc_mb_pos _ _ b (List.mem_reverse.mp hb)
  have hsum : mb = (((alloc_mb mb.toNat chunk.toNat).reverse).sum : Int) := by
    rw [List.sum_reverse, alloc_mb_sum _ _ (by omega)]
    omega
  rw [mem_add_eq (.intVal mb) (.intVal chunk) mb chunk s rfl rfl h1 h2 h3,
      mem_free_eq (.intVal mb) mb _ rfl h1,
      freeLoop_exact _ _ hpos mb h1 hsum]

/-- Witness for C6 at `s = [[3]]`, `mb = 5`, `chunk = 2`. -/
theorem C6_grow_shrink_roundtrip_witness :
    (0:Int) < 5 ∧ (5:Int) ≤ 4096 ∧ (0:Int) < 2 ∧
    current_mb (mem_free (.intVal 5)
      ((mem_add (.intVal 5) (.intVal 2) [[3]]).2)).2 = current_mb [[3]] :=
  ⟨by decide, by decide, by decide,
    C6_grow_shrink_roundtrip [[3]] 5 2 (by decide) (by decide) (by decide)⟩

/-- C7: for every valid Pool state, Shrink(mb) with `mb` at least the
current total succeeds (structured ok response reporting total 0) and leaves
a Pool with no groups at all. -/
theorem C7_shrink_over_clamps (s : Pool) (mb : Int) (hv : ValidPool s)
    (h1 : 0 < mb) (h2 : (current_mb s : Int) ≤ mb) :
    (mem_free (.intVal mb) s).1 = .ok (mb, 0) ∧
    (mem_free (.intVal mb) s).2 = [] := by
  have hdrain : freeLoop mb s = [] := freeLoop_drain s hv mb h2 (Or.inl h1)
  rw [mem_free_eq (.intVal mb) mb s rfl h1, hdrain]
  exact ⟨rfl, rfl⟩

/-- Witness for C7 at `s = [[2], [3, 4]]`, `mb = 10`. -/
theorem C7_shrink_over_clamps_witness :
    ValidPool [[2], [3, 4]] ∧ (0:Int) < 10 ∧
    ((current_mb [[2], [3, 4]] : Int) ≤ 10) ∧
    ((mem_free (.intVal 10) [[2], [3, 4]]).1 = .ok (10, 0) ∧
     (mem_free (.intVal 10) [[2], [3, 4]]).2 = []) :=
  ⟨by decide, by decide, by decide,
    C7_shrink_over_clamps [[2], [3, 4]] 10 (by decide) (by decide)
      (by decide)⟩

/-- C8: for every Pool state with total `curr` and every `0 ≤ target < curr`,
Converge(target) removes whole Blocks in LIFO order and never splits a Block
(the resulting flattened, newest-first block sequence is a suffix of the
original one, i.e. exactly the newest blocks were removed, each whole), and
the resulting total is at most `target`. -/
theorem C8_converge_down (s : Pool) (target : Int) (h0 : 0 ≤ target)
    (hlt : target < (current_mb s : Int)) :
    (mem_set (.intVal target) s).2.flatten <:+ s.flatten ∧
    (current_mb (mem_set (.intVal target) s).2 : Int) ≤ target := by
  rw [mem_set_eq_down (.intVal target) target s rfl h0 hlt]
  refine ⟨freeLoop_suffix _ s, ?_⟩
  show (current_mb (freeLoop ((current_mb s : Int) - target) s) : Int) ≤
    target
  have := freeLoop_total ((current_mb s : Int) - target) s
  omega

/-- Witness for C8 at `s = [[4, 8], [8]]`, `target = 5`. -/
theorem C8_converge_down_witness :
    (0:Int) ≤ 5 ∧ ((5:Int) < (current_mb [[4, 8], [8]] : Int)) ∧
    ((mem_set (.intVal 5) [[4, 8], [8]]).2.flatten <:+
        ([[4, 8], [8]] : Pool).flatten ∧
     (current_mb (mem_set (.intVal 5) [[4, 8], [8]]).2 : Int) ≤ 5) :=
  ⟨by decide, by decide,
    C8_converge_down [[4, 8], [8]] 5 (by decide) (by decide)⟩

/-- C9: no operation ever leaves an empty Group in the Pool: given a pool
with no empty groups, the pool after any Grow, Converge, Shrink or Clear
call (valid or rejected) again has no empty groups; in particular Grow never
appends an empty Group (and the read-only Query takes no state at all). -/
theorem C9_no_empty_groups (s : Pool) (h : noEmptyGroup s) (a b c d : Arg) :
    noEmptyGroup (mem_add a b s).2 ∧
    noEmptyGroup (mem_set c s).2 ∧
    noEmptyGroup (mem_free d s).2 ∧
    noEmptyGroup (mem_clear s).2 := by
  refine ⟨?_, ?_, ?_, ?_⟩
  · rcases mem_add_shape a b s with heq | ⟨mb, chunk, hmb, hchunk, heq⟩
    · rw [heq]; exact h
    · rw [heq]
      intro g hg
      rcases List.mem_cons.mp hg with rfl | hg2
      · simpa using alloc_mb_ne_nil mb.toNat chunk.toNat (by omega) (by omega)
      · exact h g hg2
  · rcases mem_set_shape c s with heq | ⟨amt, hamt, heq⟩ | ⟨r, heq⟩
    · rw [heq]; exact h
    · rw [heq]
      intro g hg
      rcases List.mem_cons.mp hg with rfl | hg2
      · simpa using alloc_mb_ne_nil amt CHUNK_MB_DEFAULT (by omega) (by decide)
      · exact h g hg2
    · rw [heq]; exact freeLoop_noEmpty r s h
  · rcases mem_free_shape d s with heq | ⟨r, heq⟩
    · rw [heq]; exact h
    · rw [heq]; exact freeLoop_noEmpty r s h
  · intro g hg
    simp [mem_clear] at hg

/-- Witness for C9 at `s = [[2]]` with one valid and one invalid argument
mix. -/
theorem C9_no_empty_groups_witness :
    noEmptyGroup [[2]] ∧
    (noEmptyGroup (mem_add (.intVal 5) (.intVal 2) [[2]]).2 ∧
     noEmptyGroup (mem_set (.intVal 1) [[2]]).2 ∧
     noEmptyGroup (mem_free (.intVal 1) [[2]]).2 ∧
     noEmptyGroup (mem_clear [[2]]).2) :=
  ⟨by decide,
    C9_no_empty_groups [[2]] (by decide) (.intVal 5) (.intVal 2) (.intVal 1)
      (.intVal 1)⟩

/-- C10: for every Pool state and every valid Shrink(mb), the resulting
total is at most `max 0 (previous total - mb)`: the shrink never frees less
than requested while the Pool still holds memory (whole-block popping may
free more). -/
theorem C10_shrink_lower_bound (s : Pool) (mb : Int) (h : 0 < mb) :
    (current_mb (mem_free (.intVal mb) s).2 : Int) ≤
      max 0 ((current_mb s : Int) - mb) := by
  rw [mem_free_eq (.intVal mb) mb s rfl h]
  exact freeLoop_total mb s

/-- Witness for C10 at `s = [[3], [4]]`, `mb = 5`. -/
theorem C10_shrink_lower_bound_witness :
    (0:Int) < 5 ∧
    (current_mb (mem_free (.intVal 5) [[3], [4]]).2 : Int) ≤
      max 0 ((current_mb [[3], [4]] : Int) - 5) :=
  ⟨by decide, C10_shrink_lower_bound [[3], [4]] 5 (by decide)⟩

end MemApp
